import Mathlib

set_option maxRecDepth 100000

/-!
Verification of the day 3 toboggan-map traversal engine of
`advent_of_code_2020` (`src/day_03/src/main.rs`).

The Rust code is shallowly embedded: the input text is a `List Char`,
`Vec<Vec<usize>>` becomes `List (List Nat)`, `isize` becomes `Int`, and the
fallible `move_by` returns an explicit `MoveResult` where `illegalMove` is the
`bail!("Illegal move")` branch and `outOfRange` marks the situation where the
final `self.map[self.pos.y as usize][self.pos.x as usize]` lookup would panic
in Rust (index out of range, including a negative `isize` cast to a huge
`usize`).  The unbounded `loop` in `main` is embedded with an explicit fuel
parameter; the development proves that fuel equal to the grid height is always
sufficient for the loop to reach its natural `Err` exit.
-/

namespace AoC2020Day03

/-- One cell of the parsed map, as pushed by the inner parsing loop:
`match col { '#' => 1, _ => 0 }`. -/
def cellOfChar (c : Char) : Nat :=
  match c with
  | '#' => 1
  | _ => 0

/-- Split a character list at every newline character.  An input without any
newline yields a single segment; a trailing newline yields a trailing empty
segment (removed by `rustLines` below, mirroring `str::lines`, which is
`split_terminator('\n')` followed by stripping a trailing carriage return). -/
def splitOnNL : List Char → List (List Char)
  | [] => [[]]
  | c :: rest =>
    let r := splitOnNL rest
    if c = '\n' then [] :: r
    else
      match r with
      | [] => [[c]]
      | l :: ls => (c :: l) :: ls

/-- Strip one trailing carriage return, as `str::lines` does to each line. -/
def stripCR (l : List Char) : List Char :=
  match l.getLast? with
  | some c => if c = '\r' then l.dropLast else l
  | none => l

/-- Model of Rust `str::lines`: split on `'\n'`, drop the trailing empty
segment produced by a final line terminator, strip a trailing `'\r'` from
each line. -/
def rustLines (s : List Char) : List (List Char) :=
  let parts := splitOnNL s
  let parts := if parts.getLast? = some [] then parts.dropLast else parts
  parts.map stripCR

/-- Model of Rust `str::trim`: remove leading and trailing whitespace. -/
def trim (l : List Char) : List Char :=
  ((l.dropWhile Char.isWhitespace).reverse.dropWhile Char.isWhitespace).reverse

/-- `struct Coords { x: isize, y: isize }`. -/
structure Coords where
  x : Int
  y : Int
deriving DecidableEq

/-- `struct TobogganMap { map: Vec<Vec<usize>>, pos: Coords, max_x: isize,
max_y: isize }`. -/
structure TobogganMap where
  map : List (List Nat)
  pos : Coords
  max_x : Int
  max_y : Int
deriving DecidableEq

/-- Outcome of one `move_by` call.  `ok v` is `Ok(v)`; `illegalMove` is the
`bail!("Illegal move")` result used to stop a sweep; `outOfRange` marks the
index-out-of-range panic Rust would raise in the final
`self.map[self.pos.y as usize][self.pos.x as usize]` expression. -/
inductive MoveResult where
  | ok (v : Nat)
  | illegalMove
  | outOfRange
deriving DecidableEq

/-- Inner parsing step of `from_string_map`: push one parsed cell and update
`max_col` (`if colnum as isize > max_col { max_col = colnum }`). -/
def innerStep (acc : List Nat × Int) (cp : Nat × Char) : List Nat × Int :=
  (acc.1 ++ [cellOfChar cp.2],
   if (cp.1 : Int) > acc.2 then (cp.1 : Int) else acc.2)

/-- Outer parsing step of `from_string_map`: parse one row (chars of the
trimmed line, enumerated from 0) and update `max_row`
(`if rownum as isize > max_row { max_row = rownum }`). -/
def outerStep (acc : List (List Nat) × Int × Int) (rp : Nat × List Char) :
    List (List Nat) × Int × Int :=
  let rowCells := (trim rp.2).enum.foldl innerStep ([], acc.2.2)
  (acc.1 ++ [rowCells.1],
   if (rp.1 : Int) > acc.2.1 then (rp.1 : Int) else acc.2.1,
   rowCells.2)

/-- `TobogganMap::from_string_map`: loop over the enumerated lines of the
input, trimming each row, with `map`, `max_row` and `max_col` accumulated
exactly as the two nested `for` loops do; the cursor starts at `(0, 0)`. -/
def from_string_map (mapstr : List Char) : TobogganMap :=
  let rows := rustLines mapstr
  let folded := rows.enum.foldl outerStep ([], 0, 0)
  { map := folded.1
    pos := { x := 0, y := 0 }
    max_x := folded.2.2
    max_y := folded.2.1 }

/-- The three-way horizontal update at the top of `move_by`:
overflow wraps by `x - max_x - 1`, underflow wraps by `x + max_x + 1`,
otherwise the cursor just moves by `x`. -/
def wrapX (posx x mx : Int) : Int :=
  if posx + x > mx then posx + (x - mx - 1)
  else if posx + x < 0 then posx + (x + mx + 1)
  else posx + x

/-- `TobogganMap::move_by`: first the horizontal wraparound mutates `pos.x`,
then the vertical bounds check either bails (leaving `pos.y` untouched) or
moves `pos.y`, and finally the cell at the new position is read.  On the
success path `pos.y` is nonnegative, so only a negative `pos.x` (or an index
past the end of a row) can make the Rust lookup panic, modelled by
`outOfRange`. -/
def move_by (m : TobogganMap) (x y : Int) : TobogganMap × MoveResult :=
  let m1 : TobogganMap :=
    { m with pos := { x := wrapX m.pos.x x m.max_x, y := m.pos.y } }
  if m1.pos.y + y > m1.max_y then (m1, MoveResult.illegalMove)
  else if m1.pos.y + y < 0 then (m1, MoveResult.illegalMove)
  else
    let m2 : TobogganMap := { m1 with pos := { x := m1.pos.x, y := m1.pos.y + y } }
    match (if 0 ≤ m2.pos.x then
             (m2.map.get? m2.pos.y.toNat).bind (fun row => row.get? m2.pos.x.toNat)
           else none) with
    | some v => (m2, MoveResult.ok v)
    | none => (m2, MoveResult.outOfRange)

/-- `TobogganMap::reset_position`: set both cursor coordinates to 0. -/
def reset_position (m : TobogganMap) : TobogganMap :=
  { m with pos := { x := 0, y := 0 } }

/-- One sweep loop of `main` (`loop { match map.move_by(dx, dy) { Ok(val) =>
encountered_trees += val, Err(_) => break } }`), with explicit fuel.  Returns
the final engine state, the accumulated tree count, the number of successful
moves, and whether the loop reached its natural `Err` exit (`false` means the
fuel ran out or a lookup went out of range, i.e. the Rust program panicked). -/
def runSweep : Nat → TobogganMap → Int → Int → TobogganMap × Nat × Nat × Bool
  | 0, m, _, _ => (m, 0, 0, false)
  | Nat.succ fuel, m, dx, dy =>
    match move_by m dx dy with
    | (m2, MoveResult.ok v) =>
      let r := runSweep fuel m2 dx dy
      (r.1, v + r.2.1, r.2.2.1 + 1, r.2.2.2)
    | (m2, MoveResult.illegalMove) => (m2, 0, 0, true)
    | (m2, MoveResult.outOfRange) => (m2, 0, 0, false)

/-- The hard-coded fallback input of `get_input_test` (the canonical 11-row
sample map, with the indentation of the Rust string literal). -/
def get_input_test : String :=
  "..##.......\n        #...#...#..\n        .#....#..#.\n        ..#.#...#.#\n        .#...##..#.\n        ..#.##.....\n        .#.#.#....#\n        .#........#\n        #.##...#...\n        #...##....#\n        .#..#...#.#"

/-- The five tree counts collected by `main`: five sweep loops, each followed
by `reset_position`, with the slopes (1,1), (3,1), (5,1), (7,1), (1,2). -/
def day03_counts (input : List Char) (fuel : Nat) : List Nat :=
  let m0 := from_string_map input
  let r1 := runSweep fuel m0 1 1
  let m1 := reset_position r1.1
  let r2 := runSweep fuel m1 3 1
  let m2 := reset_position r2.1
  let r3 := runSweep fuel m2 5 1
  let m3 := reset_position r3.1
  let r4 := runSweep fuel m3 7 1
  let m4 := reset_position r4.1
  let r5 := runSweep fuel m4 1 2
  [r1.2.1, r2.2.1, r3.2.1, r4.2.1, r5.2.1]

/-- The final answer loop of `main`: starting from `encountered_trees = 0`,
for each count, if the accumulator is still 0 it is replaced by the count,
otherwise it is multiplied by the count. -/
def day03_answer (input : List Char) (fuel : Nat) : Nat :=
  (day03_counts input fuel).foldl (fun acc c => if acc = 0 then c else acc * c) 0

/-- A call the engine's owner can make: either `move_by dx dy` or
`reset_position`. -/
inductive Op where
  | move (dx dy : Int)
  | reset
deriving DecidableEq

/-- `op` is a move whose horizontal delta is bounded by `b` (or a reset). -/
def opBounded (b : Int) : Op → Bool
  | Op.move dx _ => decide (|dx| ≤ b)
  | Op.reset => true

/-- Apply one call to the engine, keeping only the mutated state. -/
def applyOp (m : TobogganMap) : Op → TobogganMap
  | Op.move dx dy => (move_by m dx dy).1
  | Op.reset => reset_position m

/-- Apply a sequence of calls to the engine. -/
def applyOps (m : TobogganMap) (ops : List Op) : TobogganMap :=
  ops.foldl applyOp m

/-- The engine state after a freshly constructed engine has served a sequence
of calls. -/
def engineAfter (s : List Char) (ops : List Op) : TobogganMap :=
  applyOps (from_string_map s) ops

/-- The cursor lies inside the engine's advertised bounds. -/
def cursorInBounds (m : TobogganMap) : Prop :=
  0 ≤ m.pos.x ∧ m.pos.x ≤ m.max_x ∧ 0 ≤ m.pos.y ∧ m.pos.y ≤ m.max_y

/-- A well-formed 11-wide grid on which the first sweep hits no tree while
later sweeps do: slope (1,1) passes only empty cells, so `main`'s product
loop, whose accumulator starts at 0 and replaces a zero accumulator instead
of multiplying, silently drops the zero count. -/
def inputC2 : String := "...........\n...#.#.#...\n.#........."

/-- A minimal one-row map of width 3, used to exercise the single-subtraction
horizontal wrap with a delta larger than the width. -/
def inputC3 : String := "###"

/-- A rectangular 3x3 map, used to exercise a sweep whose horizontal delta
exceeds the width. -/
def inputC4 : String := "###\n###\n###"

/-- A rectangular 2-row map of width 3 with equal trimmed row lengths. -/
def inputC7 : String := "..#\n#.#"

/-- A small rectangular 2x2 map used to instantiate proved theorems at
concrete inputs. -/
def inputW : String := "#.\n.#"

/-- A small sequence of calls used to instantiate the cursor-bounds invariant
at a concrete input. -/
def opsW : List Op := [Op.move 1 1, Op.reset, Op.move 2 1]

/-! ### Closed forms for the parsing folds -/

theorem cellOfChar_eq_if (c : Char) : cellOfChar c = if c = '#' then 1 else 0 := by
  by_cases h : c = '#' <;> simp [cellOfChar, h]

theorem enum_eq_enumFrom {α : Type} (l : List α) : l.enum = List.enumFrom 0 l := rfl

theorem foldl_innerStep_fst (l : List Char) :
    ∀ (s : Nat) (cells : List Nat) (mc : Int),
    ((List.enumFrom s l).foldl innerStep (cells, mc)).1 = cells ++ l.map cellOfChar := by
  induction l with
  | nil => intro s cells mc; simp [List.enumFrom]
  | cons c tl ih =>
    intro s cells mc
    simp only [List.enumFrom, List.foldl_cons, innerStep, List.map_cons]
    rw [ih]
    simp

theorem foldl_innerStep_snd (l : List Char) :
    ∀ (s : Nat) (cells : List Nat) (mc : Int),
    ((List.enumFrom s l).foldl innerStep (cells, mc)).2 =
      if l.length = 0 then mc
      else if (s : Int) + l.length - 1 > mc then (s : Int) + l.length - 1 else mc := by
  induction l with
  | nil => intro s cells mc; simp [List.enumFrom]
  | cons c tl ih =>
    intro s cells mc
    simp only [List.enumFrom, List.foldl_cons, innerStep, List.length_cons]
    rw [ih]
    push_cast
    split_ifs <;> omega

theorem foldl_outerStep_fst (rows : List (List Char)) :
    ∀ (s : Nat) (acc : List (List Nat)) (mr mc : Int),
    ((List.enumFrom s rows).foldl outerStep (acc, mr, mc)).1 =
      acc ++ rows.map (fun r => (trim r).map cellOfChar) := by
  induction rows with
  | nil => intro s acc mr mc; simp [List.enumFrom]
  | cons r rs ih =>
    intro s acc mr mc
    simp only [List.enumFrom, List.foldl_cons, outerStep, List.map_cons, enum_eq_enumFrom]
    rw [ih, foldl_innerStep_fst (trim r) 0 [] mc]
    simp

theorem foldl_outerStep_maxrow (rows : List (List Char)) :
    ∀ (s : Nat) (acc : List (List Nat)) (mr mc : Int),
    ((List.enumFrom s rows).foldl outerStep (acc, mr, mc)).2.1 =
      if rows.length = 0 then mr
      else if (s : Int) + rows.length - 1 > mr then (s : Int) + rows.length - 1 else mr := by
  induction rows with
  | nil => intro s acc mr mc; simp [List.enumFrom]
  | cons r rs ih =>
    intro s acc mr mc
    simp only [List.enumFrom, List.foldl_cons, outerStep, List.length_cons]
    rw [ih]
    push_cast
    split_ifs <;> omega

theorem foldl_outerStep_maxcol_nonneg (rows : List (List Char)) :
    ∀ (s : Nat) (acc : List (List Nat)) (mr mc : Int), 0 ≤ mc →
    0 ≤ ((List.enumFrom s rows).foldl outerStep (acc, mr, mc)).2.2 := by
  induction rows with
  | nil => intro s acc mr mc h; simpa [List.enumFrom] using h
  | cons r rs ih =>
    intro s acc mr mc h
    simp only [List.enumFrom, List.foldl_cons, outerStep, enum_eq_enumFrom]
    rw [foldl_innerStep_snd (trim r) 0 [] mc]
    apply ih
    split_ifs <;> omega

theorem foldl_outerStep_maxcol_rect (rows : List (List Char)) :
    ∀ (s : Nat) (acc : List (List Nat)) (mr mc : Int) (W : Nat),
    1 ≤ W → (∀ r ∈ rows, (trim r).length = W) → 0 ≤ mc → mc ≤ (W : Int) - 1 →
    ((List.enumFrom s rows).foldl outerStep (acc, mr, mc)).2.2 =
      if rows.length = 0 then mc else (W : Int) - 1 := by
  induction rows with
  | nil => intro s acc mr mc W hW hrect h0 h1; simp [List.enumFrom]
  | cons r rs ih =>
    intro s acc mr mc W hW hrect h0 h1
    have hr : (trim r).length = W := hrect r (List.mem_cons_self r rs)
    simp only [List.enumFrom, List.foldl_cons, outerStep, List.length_cons, enum_eq_enumFrom]
    rw [foldl_innerStep_snd (trim r) 0 [] mc, hr]
    rw [ih (s + 1) _ _ _ W hW (fun q hq => hrect q (List.mem_cons_of_mem r hq))]
    · push_cast
      split_ifs <;> omega
    · split_ifs <;> omega
    · split_ifs <;> omega

/-! ### Field-level facts about `from_string_map` -/

theorem from_string_map_map (s : List Char) :
    (from_string_map s).map = (rustLines s).map (fun r => (trim r).map cellOfChar) := by
  show ((List.enumFrom 0 (rustLines s)).foldl outerStep ([], 0, 0)).1 = _
  rw [foldl_outerStep_fst]
  simp

theorem from_string_map_pos (s : List Char) : (from_string_map s).pos = ⟨0, 0⟩ := rfl

theorem from_string_map_max_y_nonneg (s : List Char) : 0 ≤ (from_string_map s).max_y := by
  show 0 ≤ ((List.enumFrom 0 (rustLines s)).foldl outerStep ([], 0, 0)).2.1
  rw [foldl_outerStep_maxrow]
  split_ifs <;> omega

theorem from_string_map_max_y_eq (s : List Char) (h : 1 ≤ (rustLines s).length) :
    (from_string_map s).max_y = ((rustLines s).length : Int) - 1 := by
  show ((List.enumFrom 0 (rustLines s)).foldl outerStep ([], 0, 0)).2.1 = _
  rw [foldl_outerStep_maxrow]
  split_ifs <;> omega

theorem from_string_map_max_x_nonneg (s : List Char) : 0 ≤ (from_string_map s).max_x := by
  show 0 ≤ ((List.enumFrom 0 (rustLines s)).foldl outerStep ([], 0, 0)).2.2
  exact foldl_outerStep_maxcol_nonneg (rustLines s) 0 [] 0 0 le_rfl

theorem from_string_map_max_x_eq (s : List Char) (W : Nat) (hW : 1 ≤ W)
    (hrect : ∀ r ∈ rustLines s, (trim r).length = W) (h : 1 ≤ (rustLines s).length) :
    (from_string_map s).max_x = (W : Int) - 1 := by
  show ((List.enumFrom 0 (rustLines s)).foldl outerStep ([], 0, 0)).2.2 = _
  rw [foldl_outerStep_maxcol_rect (rustLines s) 0 [] 0 0 W hW hrect le_rfl (by omega)]
  split_ifs with hh
  · omega
  · rfl

/-! ### Behaviour of `move_by` -/

theorem wrapX_spec (a d mx : Int) (h1 : 0 ≤ a) (h2 : a ≤ mx) (h3 : |d| ≤ mx + 1) :
    0 ≤ wrapX a d mx ∧ wrapX a d mx ≤ mx ∧ wrapX a d mx = (a + d) % (mx + 1) := by
  have h3a : -(mx + 1) ≤ d := neg_le_of_abs_le h3
  have h3b : d ≤ mx + 1 := le_of_abs_le h3
  unfold wrapX
  split_ifs with hov hun
  · refine ⟨by omega, by omega, ?_⟩
    have he : a + d = (a + (d - mx - 1)) + (mx + 1) * 1 := by ring
    rw [he, Int.add_mul_emod_self_left, Int.emod_eq_of_lt (by omega) (by omega)]
  · refine ⟨by omega, by omega, ?_⟩
    have he : a + d = (a + (d + mx + 1)) + (mx + 1) * (-1) := by ring
    rw [he, Int.add_mul_emod_self_left, Int.emod_eq_of_lt (by omega) (by omega)]
  · exact ⟨by omega, by omega, (Int.emod_eq_of_lt (by omega) (by omega)).symm⟩

theorem move_by_fst (m : TobogganMap) (x y : Int) :
    (move_by m x y).1 =
      { m with pos := { x := wrapX m.pos.x x m.max_x,
                        y := if m.pos.y + y > m.max_y ∨ m.pos.y + y < 0 then m.pos.y
                             else m.pos.y + y } } := by
  unfold move_by
  dsimp only
  split_ifs with h1 h2 h3 <;> try (first | rfl | omega)
  all_goals
    cases hm : ((m.map.get? (m.pos.y + y).toNat).bind
        (fun row => row.get? (wrapX m.pos.x x m.max_x).toNat)) <;> simp_all

theorem move_by_fst_pos_x (m : TobogganMap) (x y : Int) :
    (move_by m x y).1.pos.x = wrapX m.pos.x x m.max_x := by
  rw [move_by_fst]

theorem move_by_fst_pos_y (m : TobogganMap) (x y : Int) :
    (move_by m x y).1.pos.y =
      if m.pos.y + y > m.max_y ∨ m.pos.y + y < 0 then m.pos.y else m.pos.y + y := by
  rw [move_by_fst]

theorem move_by_fst_map (m : TobogganMap) (x y : Int) :
    (move_by m x y).1.map = m.map := by
  rw [move_by_fst]

theorem move_by_fst_max_x (m : TobogganMap) (x y : Int) :
    (move_by m x y).1.max_x = m.max_x := by
  rw [move_by_fst]

theorem move_by_fst_max_y (m : TobogganMap) (x y : Int) :
    (move_by m x y).1.max_y = m.max_y := by
  rw [move_by_fst]

theorem move_by_snd_illegal_iff (m : TobogganMap) (x y : Int) :
    (move_by m x y).2 = MoveResult.illegalMove ↔
      (m.pos.y + y > m.max_y ∨ m.pos.y + y < 0) := by
  unfold move_by
  dsimp only
  split_ifs with h1 h2 h3
  · simp [h1]
  · simp [h2]
  · cases hm : ((m.map.get? (m.pos.y + y).toNat).bind
        (fun row => row.get? (wrapX m.pos.x x m.max_x).toNat)) <;> simp_all
  · simp_all

theorem move_by_ok_of (m : TobogganMap) (x y : Int) (W : Nat)
    (hrows : ∀ row ∈ m.map, row.length = W)
    (hmx : m.max_x = (W : Int) - 1)
    (hmy : m.max_y = (m.map.length : Int) - 1)
    (hx1 : 0 ≤ m.pos.x) (hx2 : m.pos.x ≤ m.max_x)
    (hyin1 : 0 ≤ m.pos.y + y) (hyin2 : m.pos.y + y ≤ m.max_y)
    (hdx : |x| ≤ m.max_x + 1) :
    ∃ v, move_by m x y =
      ({ m with pos := { x := wrapX m.pos.x x m.max_x, y := m.pos.y + y } },
       MoveResult.ok v) := by
  obtain ⟨hnx1, hnx2, _⟩ := wrapX_spec m.pos.x x m.max_x hx1 hx2 hdx
  have hylt : (m.pos.y + y).toNat < m.map.length := by omega
  obtain ⟨row, hrow⟩ : ∃ row, m.map.get? (m.pos.y + y).toNat = some row :=
    ⟨m.map.get ⟨(m.pos.y + y).toNat, hylt⟩, List.get?_eq_get hylt⟩
  have hrowmem : row ∈ m.map := List.get?_mem hrow
  have hrowlen : row.length = W := hrows row hrowmem
  have hxlt : (wrapX m.pos.x x m.max_x).toNat < row.length := by omega
  obtain ⟨v, hv⟩ : ∃ v, row.get? (wrapX m.pos.x x m.max_x).toNat = some v :=
    ⟨row.get ⟨(wrapX m.pos.x x m.max_x).toNat, hxlt⟩, List.get?_eq_get hxlt⟩
  refine ⟨v, ?_⟩
  simp only [move_by]
  rw [if_neg (by omega), if_neg (by omega), if_pos hnx1, hrow, Option.some_bind, hv]

/-! ### The sweep loop: termination and step count -/

theorem runSweep_spec : ∀ (fuel : Nat) (m : TobogganMap) (dx : Int) (dyN W : Nat),
    1 ≤ dyN →
    (∀ row ∈ m.map, row.length = W) →
    m.max_x = (W : Int) - 1 →
    m.max_y = (m.map.length : Int) - 1 →
    0 ≤ m.pos.x → m.pos.x ≤ m.max_x →
    0 ≤ m.pos.y → m.pos.y ≤ m.max_y →
    |dx| ≤ m.max_x + 1 →
    (m.max_y - m.pos.y).toNat / dyN + 1 ≤ fuel →
    (runSweep fuel m dx (dyN : Int)).2.2.2 = true ∧
    (runSweep fuel m dx (dyN : Int)).2.2.1 = (m.max_y - m.pos.y).toNat / dyN := by
  intro fuel
  induction fuel with
  | zero =>
    intro m dx dyN W hdy _ _ _ _ _ _ _ _ hfuel
    exact absurd hfuel (Nat.not_succ_le_zero _)
  | succ n ih =>
    intro m dx dyN W hdy hrows hmx hmy hx1 hx2 hy1 hy2 hdx hfuel
    by_cases hend : m.pos.y + (dyN : Int) > m.max_y
    · have hsnd : (move_by m dx (dyN : Int)).2 = MoveResult.illegalMove :=
        (move_by_snd_illegal_iff m dx (dyN : Int)).mpr (Or.inl hend)
      have hdiv : (m.max_y - m.pos.y).toNat / dyN = 0 := Nat.div_eq_of_lt (by omega)
      rcases hmv : move_by m dx (dyN : Int) with ⟨m2, res⟩
      have hres : res = MoveResult.illegalMove := by rw [hmv] at hsnd; exact hsnd
      subst hres
      simp [runSweep, hmv, hdiv]
    · push_neg at hend
      obtain ⟨v, hmv⟩ := move_by_ok_of m dx (dyN : Int) W hrows hmx hmy hx1 hx2
        (by omega) hend hdx
      obtain ⟨w1, w2, _⟩ := wrapX_spec m.pos.x dx m.max_x hx1 hx2 hdx
      have hstep : (m.max_y - m.pos.y).toNat = (m.max_y - (m.pos.y + dyN)).toNat + dyN := by
        omega
      have hquot : (m.max_y - m.pos.y).toNat / dyN
          = (m.max_y - (m.pos.y + dyN)).toNat / dyN + 1 := by
        rw [hstep, Nat.add_div_right _ (by omega)]
      have hrec := ih { m with pos := { x := wrapX m.pos.x dx m.max_x, y := m.pos.y + dyN } }
        dx dyN W hdy hrows hmx hmy w1 w2 (by simp; omega) (by simp; omega) hdx
        (by simp only; omega)
      simp only [runSweep, hmv]
      refine ⟨hrec.1, ?_⟩
      rw [hrec.2]
      simp only at hquot ⊢
      omega

/-! ### Cursor bounds as an invariant of arbitrary call sequences -/

theorem move_by_preserves_bounds (m : TobogganMap) (dx dy : Int)
    (h : cursorInBounds m) (hdx : |dx| ≤ m.max_x + 1) :
    cursorInBounds (move_by m dx dy).1 := by
  obtain ⟨h1, h2, h3, h4⟩ := h
  obtain ⟨w1, w2, _⟩ := wrapX_spec m.pos.x dx m.max_x h1 h2 hdx
  unfold cursorInBounds
  rw [move_by_fst_pos_x, move_by_fst_pos_y, move_by_fst_max_x, move_by_fst_max_y]
  split_ifs with hc
  · exact ⟨w1, w2, h3, h4⟩
  · exact ⟨w1, w2, by omega, by omega⟩

theorem reset_position_preserves_bounds (m : TobogganMap) (h : cursorInBounds m) :
    cursorInBounds (reset_position m) := by
  obtain ⟨h1, h2, h3, h4⟩ := h
  exact ⟨le_rfl, by simp [reset_position]; omega, le_rfl, by simp [reset_position]; omega⟩

theorem applyOp_max_x (m : TobogganMap) (op : Op) : (applyOp m op).max_x = m.max_x := by
  cases op with
  | move dx dy => simp [applyOp, move_by_fst_max_x]
  | reset => rfl

theorem applyOp_max_y (m : TobogganMap) (op : Op) : (applyOp m op).max_y = m.max_y := by
  cases op with
  | move dx dy => simp [applyOp, move_by_fst_max_y]
  | reset => rfl

theorem applyOp_map (m : TobogganMap) (op : Op) : (applyOp m op).map = m.map := by
  cases op with
  | move dx dy => simp [applyOp, move_by_fst_map]
  | reset => rfl

theorem applyOp_preserves_bounds (m : TobogganMap) (op : Op)
    (h : cursorInBounds m) (hop : opBounded (m.max_x + 1) op = true) :
    cursorInBounds (applyOp m op) := by
  cases op with
  | move dx dy =>
    have hdx : |dx| ≤ m.max_x + 1 := of_decide_eq_true hop
    exact move_by_preserves_bounds m dx dy h hdx
  | reset => exact reset_position_preserves_bounds m h

theorem applyOps_preserves_bounds : ∀ (ops : List Op) (m : TobogganMap),
    cursorInBounds m → (∀ op ∈ ops, opBounded (m.max_x + 1) op = true) →
    cursorInBounds (applyOps m ops) := by
  intro ops
  induction ops with
  | nil => intro m h _; exact h
  | cons op ops ih =>
    intro m h hops
    show cursorInBounds (List.foldl applyOp (applyOp m op) ops)
    apply ih
    · exact applyOp_preserves_bounds m op h (hops op (List.mem_cons_self op ops))
    · intro q hq
      rw [applyOp_max_x]
      exact hops q (List.mem_cons_of_mem op hq)

theorem from_string_map_cursorInBounds (s : List Char) :
    cursorInBounds (from_string_map s) :=
  ⟨le_rfl, from_string_map_max_x_nonneg s, le_rfl, from_string_map_max_y_nonneg s⟩

/-! ### The claims -/

/-- Claim C1: for the grid built from the hard-coded 11-row sample map, the
five sweeps with slopes (1,1), (3,1), (5,1), (7,1), (1,2), each from a reset
cursor, yield tree counts whose product is 336, and the (3,1) sweep alone
yields 7 hits. -/
theorem C1_sample_map_counts :
    (day03_counts get_input_test.data 11).prod = 336 ∧
    (day03_counts get_input_test.data 11).getD 1 0 = 7 := by decide

/-- Claim C2: the final answer does not always equal the mathematical product
of the five counts.  On `inputC2` the counts are [0, 1, 1, 1, 1]: the product
loop of `main` starts its accumulator at 0 and replaces a zero accumulator by
the next count instead of multiplying, so it prints 1 while the true product
is 0. -/
theorem C2_answer_product_mismatch :
    day03_counts inputC2.data 3 = [0, 1, 1, 1, 1] ∧
    day03_answer inputC2.data 3 = 1 ∧
    (day03_counts inputC2.data 3).prod = 0 := by decide

/-- Claim C3, counterexample: on the width-3 grid `"###"` with the cursor at
x = 0 (inside [0, max_x]), `move_by 6 0` leaves x = 3, while the true
mathematical modulus (0 + 6) mod 3 is 0 — the single-subtraction wrap is not
a modulus for deltas beyond `max_x + 1`. -/
theorem C3_counterexample :
    (from_string_map inputC3.data).pos.x = 0 ∧
    (from_string_map inputC3.data).max_x = 2 ∧
    (move_by (from_string_map inputC3.data) 6 0).1.pos.x = 3 ∧
    ((from_string_map inputC3.data).pos.x + 6) % ((from_string_map inputC3.data).max_x + 1) = 0 ∧
    (move_by (from_string_map inputC3.data) 6 0).1.pos.x ≠
      ((from_string_map inputC3.data).pos.x + 6) % ((from_string_map inputC3.data).max_x + 1) := by
  decide

/-- Claim C3 (amended): whenever the cursor x lies in [0, max_x] and the
horizontal delta additionally satisfies |dx| ≤ max_x + 1, the new horizontal
coordinate equals (x + dx) mod (max_x + 1) as a true mathematical modulus and
is never negative. -/
theorem C3_wrap_is_modulus (m : TobogganMap) (dx dy : Int)
    (h1 : 0 ≤ m.pos.x) (h2 : m.pos.x ≤ m.max_x) (h3 : |dx| ≤ m.max_x + 1) :
    (move_by m dx dy).1.pos.x = (m.pos.x + dx) % (m.max_x + 1) ∧
    0 ≤ (move_by m dx dy).1.pos.x := by
  obtain ⟨w1, _, w3⟩ := wrapX_spec m.pos.x dx m.max_x h1 h2 h3
  rw [move_by_fst_pos_x]
  exact ⟨w3, w1⟩

/-- Witness for `C3_wrap_is_modulus` at the concrete grid `"###"` with
dx = 2, dy = 0. -/
theorem C3_wrap_is_modulus_witness :
    (move_by (from_string_map inputC3.data) 2 0).1.pos.x =
      ((from_string_map inputC3.data).pos.x + 2) % ((from_string_map inputC3.data).max_x + 1) ∧
    0 ≤ (move_by (from_string_map inputC3.data) 2 0).1.pos.x :=
  C3_wrap_is_modulus (from_string_map inputC3.data) 2 0 (by decide) (by decide) (by decide)

/-- Claim C4, counterexample: on the rectangular 3x3 grid `"###\n###\n###"`
with slope (6, 1), the very first `move_by` wraps x to 3, which is outside
every row, so the Rust lookup panics (`outOfRange`): the sweep performs 0
successful moves instead of the claimed floor((3 - 1) / 1) = 2. -/
theorem C4_counterexample :
    (move_by (reset_position (from_string_map inputC4.data)) 6 1).2 = MoveResult.outOfRange ∧
    (runSweep (from_string_map inputC4.data).map.length
        (reset_position (from_string_map inputC4.data)) 6 1).2.2.1 = 0 ∧
    (runSweep (from_string_map inputC4.data).map.length
        (reset_position (from_string_map inputC4.data)) 6 1).2.2.1 ≠
      ((from_string_map inputC4.data).map.length - 1) / 1 := by decide

/-- Claim C4 (amended): for every grid built from an input with H ≥ 1 rows
whose trimmed rows all have one equal length W ≥ 1, and every slope with
dy ≥ 1 and |dx| ≤ W, the sweep started from a reset cursor terminates by the
vertical out-of-bounds failure within H iterations, and the number of
successful moves before that failure is exactly floor((H - 1) / dy). -/
theorem C4_sweep_terminates (s : List Char) (dx : Int) (dyN W : Nat)
    (hdy : 1 ≤ dyN) (hW : 1 ≤ W)
    (hrect : ∀ r ∈ rustLines s, (trim r).length = W)
    (hH : 1 ≤ (rustLines s).length)
    (hdx : |dx| ≤ (W : Int)) :
    (runSweep (rustLines s).length (reset_position (from_string_map s))
        dx (dyN : Int)).2.2.2 = true ∧
    (runSweep (rustLines s).length (reset_position (from_string_map s))
        dx (dyN : Int)).2.2.1 = ((rustLines s).length - 1) / dyN := by
  have hmap : (reset_position (from_string_map s)).map
      = (rustLines s).map (fun r => (trim r).map cellOfChar) := from_string_map_map s
  have hlen : (reset_position (from_string_map s)).map.length = (rustLines s).length := by
    rw [hmap, List.length_map]
  have hrows : ∀ row ∈ (reset_position (from_string_map s)).map, row.length = W := by
    intro row hrow
    rw [hmap] at hrow
    obtain ⟨r, hrmem, rfl⟩ := List.mem_map.mp hrow
    rw [List.length_map]
    exact hrect r hrmem
  have hmx : (reset_position (from_string_map s)).max_x = (W : Int) - 1 :=
    from_string_map_max_x_eq s W hW hrect hH
  have hmy : (reset_position (from_string_map s)).max_y
      = ((reset_position (from_string_map s)).map.length : Int) - 1 := by
    rw [hlen]
    exact from_string_map_max_y_eq s hH
  have hpx : (reset_position (from_string_map s)).pos.x = 0 := rfl
  have hpy : (reset_position (from_string_map s)).pos.y = 0 := rfl
  have hspec := runSweep_spec (rustLines s).length (reset_position (from_string_map s))
    dx dyN W hdy hrows hmx hmy (by rw [hpx]) (by rw [hmx, hpx]; omega) (by rw [hpy])
    (by rw [hmy, hlen, hpy]; omega)
    (by rw [hmx]; have he : ((W : Int) - 1) + 1 = (W : Int) := by ring
        rw [he]; exact hdx)
    (by rw [hmy, hlen, hpy]
        have h1 : ((((rustLines s).length : Int) - 1) - 0).toNat = (rustLines s).length - 1 := by
          omega
        rw [h1]
        have h2 := Nat.div_le_self ((rustLines s).length - 1) dyN
        omega)
  refine ⟨hspec.1, ?_⟩
  rw [hspec.2, hmy, hlen, hpy]
  congr 1
  omega

/-- Witness for `C4_sweep_terminates` at the concrete 2x2 grid `"#.\n.#"`
with slope (1, 1). -/
theorem C4_sweep_terminates_witness :
    (runSweep (rustLines inputW.data).length (reset_position (from_string_map inputW.data))
        1 ((1 : Nat) : Int)).2.2.2 = true ∧
    (runSweep (rustLines inputW.data).length (reset_position (from_string_map inputW.data))
        1 ((1 : Nat) : Int)).2.2.1 = ((rustLines inputW.data).length - 1) / 1 :=
  C4_sweep_terminates inputW.data 1 1 2 (by decide) (by decide) (by decide) (by decide)
    (by decide)

/-- Claim C5: `move_by` returns the "Illegal move" failure exactly when
`pos.y + dy` lies outside [0, max_y], and on such a failure the vertical
coordinate is left unchanged (the horizontal wrap has already mutated x). -/
theorem C5_failure_iff_vertical_oob (m : TobogganMap) (dx dy : Int) :
    ((move_by m dx dy).2 = MoveResult.illegalMove ↔
      (m.pos.y + dy > m.max_y ∨ m.pos.y + dy < 0)) ∧
    ((m.pos.y + dy > m.max_y ∨ m.pos.y + dy < 0) →
      (move_by m dx dy).1.pos.y = m.pos.y) := by
  refine ⟨move_by_snd_illegal_iff m dx dy, fun h => ?_⟩
  rw [move_by_fst_pos_y, if_pos h]

/-- Witness for `C5_failure_iff_vertical_oob` on the one-row grid `"###"`
with dy = 5, which overflows max_y = 0. -/
theorem C5_failure_iff_vertical_oob_witness :
    (move_by (from_string_map inputC3.data) 0 5).2 = MoveResult.illegalMove ∧
    (move_by (from_string_map inputC3.data) 0 5).1.pos.y =
      (from_string_map inputC3.data).pos.y := by
  have h := C5_failure_iff_vertical_oob (from_string_map inputC3.data) 0 5
  exact ⟨h.1.mpr (by decide), h.2 (by decide)⟩

/-- Claim C6: starting from a freshly constructed engine, after any sequence
of `move_by` and `reset_position` calls whose horizontal deltas satisfy
|dx| ≤ max_x + 1, the cursor stays in [0, max_x] × [0, max_y]; moreover y is
never clamped — a vertical move that would leave [0, max_y] fails and leaves
y unchanged. -/
theorem C6_cursor_always_in_bounds (s : List Char) (ops : List Op)
    (hops : ∀ op ∈ ops, opBounded ((from_string_map s).max_x + 1) op = true) :
    cursorInBounds (engineAfter s ops) ∧
    ∀ dx dy : Int,
      (engineAfter s ops).pos.y + dy > (engineAfter s ops).max_y ∨
        (engineAfter s ops).pos.y + dy < 0 →
      (move_by (engineAfter s ops) dx dy).2 = MoveResult.illegalMove ∧
      (move_by (engineAfter s ops) dx dy).1.pos.y = (engineAfter s ops).pos.y := by
  constructor
  · exact applyOps_preserves_bounds ops (from_string_map s)
      (from_string_map_cursorInBounds s) hops
  · intro dx dy h
    refine ⟨(move_by_snd_illegal_iff _ dx dy).mpr h, ?_⟩
    rw [move_by_fst_pos_y, if_pos h]

/-- Witness for `C6_cursor_always_in_bounds` on the 2x2 grid `"#.\n.#"` with
the call sequence move(1,1); reset; move(2,1). -/
theorem C6_cursor_always_in_bounds_witness :
    cursorInBounds (engineAfter inputW.data opsW) ∧
    ∀ dx dy : Int,
      (engineAfter inputW.data opsW).pos.y + dy > (engineAfter inputW.data opsW).max_y ∨
        (engineAfter inputW.data opsW).pos.y + dy < 0 →
      (move_by (engineAfter inputW.data opsW) dx dy).2 = MoveResult.illegalMove ∧
      (move_by (engineAfter inputW.data opsW) dx dy).1.pos.y =
        (engineAfter inputW.data opsW).pos.y :=
  C6_cursor_always_in_bounds inputW.data opsW (by decide)

/-- Claim C7, counterexample: the input `"..#\n#.#"` is well-formed (two rows
of equal trimmed length 3), yet the call `move_by 6 1` from the fresh cursor
passes the vertical bounds check and then looks up column 3 of a row of
length 3 — the lookup goes out of range (a panic in the Rust code). -/
theorem C7_counterexample :
    (∀ r ∈ rustLines inputC7.data, (trim r).length = 3) ∧
    (move_by (from_string_map inputC7.data) 6 1).2 = MoveResult.outOfRange ∧
    (move_by (from_string_map inputC7.data) 6 1).1.pos.x = 3 ∧
    ((from_string_map inputC7.data).map.getD 1 []).length = 3 := by decide

/-- Claim C7 (amended): on a grid whose rows all have one equal length W ≥ 1
(as produced by `from_string_map` from well-formed input), with the cursor in
bounds and |dx| ≤ W, every `move_by` either fails the vertical bounds check
or returns the value of an existing cell — the lookup never goes out of
range. -/
theorem C7_lookup_in_range (m : TobogganMap) (dx dy : Int) (W : Nat)
    (hrows : ∀ row ∈ m.map, row.length = W)
    (hmx : m.max_x = (W : Int) - 1)
    (hmy : m.max_y = (m.map.length : Int) - 1)
    (hx1 : 0 ≤ m.pos.x) (hx2 : m.pos.x ≤ m.max_x)
    (hy1 : 0 ≤ m.pos.y) (hy2 : m.pos.y ≤ m.max_y)
    (hdx : |dx| ≤ (W : Int)) :
    (move_by m dx dy).2 = MoveResult.illegalMove ∨
    ∃ v, (move_by m dx dy).2 = MoveResult.ok v := by
  by_cases h : m.pos.y + dy > m.max_y ∨ m.pos.y + dy < 0
  · exact Or.inl ((move_by_snd_illegal_iff m dx dy).mpr h)
  · push_neg at h
    obtain ⟨v, hv⟩ := move_by_ok_of m dx dy W hrows hmx hmy hx1 hx2
      (by omega) (by omega)
      (by rw [hmx]
          have he : ((W : Int) - 1) + 1 = (W : Int) := by ring
          rw [he]; exact hdx)
    exact Or.inr ⟨v, by rw [hv]⟩

/-- Witness for `C7_lookup_in_range` on the 2x2 grid `"#.\n.#"` with
slope (1, 1). -/
theorem C7_lookup_in_range_witness :
    (move_by (from_string_map inputW.data) 1 1).2 = MoveResult.illegalMove ∨
    ∃ v, (move_by (from_string_map inputW.data) 1 1).2 = MoveResult.ok v :=
  C7_lookup_in_range (from_string_map inputW.data) 1 1 2 (by decide) (by decide)
    (by decide) (by decide) (by decide) (by decide) (by decide) (by decide)

/-- Claim C8: construction is total and permissive — for every input text,
the cell at (row, col) of the parsed grid is 1 exactly when the col-th
character of the trimmed row-th line is the tree marker, and 0 for every
other character. -/
theorem C8_cell_values (s : List Char) (r c : Nat)
    (hr : r < (rustLines s).length)
    (hc : c < (trim ((rustLines s).getD r [])).length) :
    ((from_string_map s).map.getD r []).getD c 0 =
      if (trim ((rustLines s).getD r [])).getD c ' ' = '#' then 1 else 0 := by
  rw [from_string_map_map]
  have hr2 : r < ((rustLines s).map (fun q => (trim q).map cellOfChar)).length := by
    simpa using hr
  rw [List.getD_eq_getElem _ _ hr2, List.getElem_map]
  have hgd : (rustLines s).getD r [] = (rustLines s)[r] := List.getD_eq_getElem _ _ hr
  rw [hgd] at hc ⊢
  have h0 : (0 : Nat) = cellOfChar ' ' := rfl
  conv_lhs => rw [h0, List.getD_map]
  rw [cellOfChar_eq_if]

/-- Witness for `C8_cell_values` at the top-left cell of the grid
`"#.\n.#"`. -/
theorem C8_cell_values_witness :
    ((from_string_map inputW.data).map.getD 0 []).getD 0 0 =
      if (trim ((rustLines inputW.data).getD 0 [])).getD 0 ' ' = '#' then 1 else 0 :=
  C8_cell_values inputW.data 0 0 (by decide) (by decide)

/-- Claim C9: moving horizontally by exactly the grid width `max_x + 1`
(with a vertical delta that keeps y inside [0, max_y]) leaves the column
unchanged, for every cursor x in [0, max_x]; repeating such a move therefore
returns the cursor to the same column each time. -/
theorem C9_move_by_width_fixes_column (m : TobogganMap) (dy : Int)
    (h1 : 0 ≤ m.pos.x) (h2 : m.pos.x ≤ m.max_x)
    (h3 : 0 ≤ m.pos.y + dy) (h4 : m.pos.y + dy ≤ m.max_y) :
    (move_by m (m.max_x + 1) dy).1.pos.x = m.pos.x := by
  rw [move_by_fst_pos_x]
  unfold wrapX
  split_ifs <;> omega

/-- Witness for `C9_move_by_width_fixes_column` on the 2x2 grid `"#.\n.#"`
with dy = 1. -/
theorem C9_move_by_width_fixes_column_witness :
    (move_by (from_string_map inputW.data)
        ((from_string_map inputW.data).max_x + 1) 1).1.pos.x =
      (from_string_map inputW.data).pos.x :=
  C9_move_by_width_fixes_column (from_string_map inputW.data) 1 (by decide) (by decide)
    (by decide) (by decide)

/-- Claim C10: `reset_position` sets the cursor to exactly (0, 0) and leaves
the map contents, max_x and max_y unchanged, whatever the prior state. -/
theorem C10_reset_position_frame (m : TobogganMap) :
    (reset_position m).pos.x = 0 ∧ (reset_position m).pos.y = 0 ∧
    (reset_position m).map = m.map ∧ (reset_position m).max_x = m.max_x ∧
    (reset_position m).max_y = m.max_y :=
  ⟨rfl, rfl, rfl, rfl, rfl⟩

end AoC2020Day03
